import Mathlib

/-!
Verification of the TGA image codec in `src/tga.cc` / `src/tga.hh` of the
`renderer` repository.  The definitions below are a shallow embedding of the
C++ code: `std::vector<uint8_t>` buffers become `List ℕ` (observed through
`size()`/`data()`, so `reserve` does not change the abstract value), `size_t`
arithmetic wraps modulo `2 ^ 64` where the code can underflow, and the
process-terminating exits (`fail(...)` and failing `assert(...)`, which are
compiled in: the build does not define `NDEBUG`) become explicit error
results.  Out-of-range writes through `operator[]` are undefined behavior in
the C++ and are modeled as leaving the buffer unchanged; out-of-range reads
inside the RLE decode loop are reported as an explicit out-of-bounds outcome.
-/

namespace Renderer

/-- Modulus of `size_t` arithmetic: the code targets a 64-bit platform. -/
def SIZE_T_MOD : ℕ := 2 ^ 64

/-- Wrapping `size_t` subtraction `a - b` modulo `2 ^ 64`, used where the C++
subtracts `size_t` values that may underflow. -/
def subWrap (a b : ℕ) : ℕ := ((a + SIZE_T_MOD) - b % SIZE_T_MOD) % SIZE_T_MOD

/-- Little-endian decoding of a `u16` from two bytes. -/
def u16le (b0 b1 : ℕ) : ℕ := b0 + 256 * b1

/-- Little-endian decoding of a `u32` from four bytes. -/
def u32le (b0 b1 b2 b3 : ℕ) : ℕ := b0 + 256 * b1 + 65536 * b2 + 16777216 * b3

/-- Little-endian byte serialization of a `u16` field. -/
def u16bytes (v : ℕ) : List ℕ := [v % 256, v / 256 % 256]

/-- Little-endian byte serialization of a `u32` field. -/
def u32bytes (v : ℕ) : List ℕ := [v % 256, v / 256 % 256, v / 65536 % 256, v / 16777216 % 256]

/-- Truncate or zero-pad a byte list to exactly `n` bytes; models reading a
fixed-size `char` array out of zero-initialized struct memory. -/
def padTo (n : ℕ) (l : List ℕ) : List ℕ := l.take n ++ List.replicate (n - l.length) 0

/-- The little-endian `u32` stored at offset `off` of a byte list. -/
def u32at (bs : List ℕ) (off : ℕ) : ℕ :=
  u32le (bs.getD off 0) (bs.getD (off + 1) 0) (bs.getD (off + 2) 0) (bs.getD (off + 3) 0)

/-- The little-endian `u16` stored at offset `off` of a byte list. -/
def u16at (bs : List ℕ) (off : ℕ) : ℕ := u16le (bs.getD off 0) (bs.getD (off + 1) 0)

/-- Models `struct Pixel` from `src/tga.hh` (defaults are opaque black,
`r = g = b = 0`, `a = 0xff`). -/
structure Pixel where
  r : ℕ
  g : ℕ
  b : ℕ
  a : ℕ
deriving DecidableEq

/-- Models `TGA::Header::ColorMapSpec` from `src/tga.hh`. -/
structure ColorMapSpec where
  first_entry_index : ℕ
  length : ℕ
  bits_per_pixel : ℕ
deriving DecidableEq

/-- Models `TGA::Header::ImageSpec` from `src/tga.hh`. -/
structure ImageSpec where
  x_origin : ℕ
  y_origin : ℕ
  width : ℕ
  height : ℕ
  bits_per_pixel : ℕ
  descriptor : ℕ
deriving DecidableEq

/-- Models `TGA::Header` from `src/tga.hh` (packed, little-endian on disk). -/
structure Header where
  id_length : ℕ
  color_map_type : ℕ
  image_type : ℕ
  color_map_spec : ColorMapSpec
  image_spec : ImageSpec
deriving DecidableEq

/-- Models `TGA::Footer` from `src/tga.hh`; `signature` is the raw 18-byte
`char` array (including the terminating NUL). -/
structure Footer where
  ext_area_offset : ℕ
  dev_dir_offset : ℕ
  signature : List ℕ
deriving DecidableEq

/-- Models `TGA::ExtensionArea` from `src/tga.hh` (495 packed bytes on disk).
`date_time`, `job_time`, `pixel_aspect` and `gamma_value` hold the decoded
`u16` values of the corresponding arrays; the `char` arrays are raw bytes.
The source field `pixel_aspect_ratio` is shortened to `pixel_aspect` here. -/
structure ExtensionArea where
  length : ℕ
  author_name : List ℕ
  author_comment : List ℕ
  date_time : List ℕ
  job_name : List ℕ
  job_time : List ℕ
  software_id : List ℕ
  software_version0 : ℕ
  software_version1 : ℕ
  key_color : List ℕ
  pixel_aspect : List ℕ
  gamma_value : List ℕ
  color_correction_offset : ℕ
  postage_stamp_offset : ℕ
  scan_line_tbl_offset : ℕ
  attributes_type : ℕ
deriving DecidableEq

/-- Models the data members of `class TGA` from `src/tga.hh`.  The byte
vectors are observed through `size()`/`data()`: a vector that was only
`reserve`d keeps abstract value `[]`. -/
structure TGA where
  header : Header
  footer : Footer
  ext_area : ExtensionArea
  is_new_format : Bool
  color_map : List ℕ
  image_data : List ℕ
  image_id_data : List ℕ
deriving DecidableEq

/-- The zero-initialized footer produced by `Footer footer {}`. -/
def zeroFooter : Footer :=
  { ext_area_offset := 0, dev_dir_offset := 0, signature := List.replicate 18 0 }

/-- The zero-initialized extension area produced by `ExtensionArea ext_area {}`. -/
def zeroExtArea : ExtensionArea :=
  { length := 0
    author_name := List.replicate 41 0
    author_comment := List.replicate 324 0
    date_time := List.replicate 6 0
    job_name := List.replicate 41 0
    job_time := List.replicate 3 0
    software_id := List.replicate 41 0
    software_version0 := 0
    software_version1 := 0
    key_color := List.replicate 4 0
    pixel_aspect := List.replicate 2 0
    gamma_value := List.replicate 2 0
    color_correction_offset := 0
    postage_stamp_offset := 0
    scan_line_tbl_offset := 0
    attributes_type := 0 }

/-- Models a default-constructed `TGA {}` (the blank-canvas path of
`src/tga.hh`: `explicit TGA(void) = default`, everything zero-initialized). -/
def blankTGA : TGA :=
  { header :=
      { id_length := 0, color_map_type := 0, image_type := 0
        color_map_spec := { first_entry_index := 0, length := 0, bits_per_pixel := 0 }
        image_spec :=
          { x_origin := 0, y_origin := 0, width := 0, height := 0
            bits_per_pixel := 0, descriptor := 0 } }
    footer := zeroFooter
    ext_area := zeroExtArea
    is_new_format := false
    color_map := []
    image_data := []
    image_id_data := [] }

/-- Models `TGA::get_pixel_width` from `src/tga.hh` (lines 136-140): the byte
width of one pixel, `bits_per_pixel / 8` rounded up. -/
def get_pixel_width (t : TGA) : ℕ :=
  t.header.image_spec.bits_per_pixel / 8 +
    (if t.header.image_spec.bits_per_pixel % 8 = 0 then 0 else 1)

/-- Models `TGA::get_width` from `src/tga.hh` (lines 142-147).  Per its own
comment it returns the image width in bytes, not pixels. -/
def get_width (t : TGA) : ℕ := t.header.image_spec.width * get_pixel_width t

/-- Models `TGA::get_height` from `src/tga.hh` (lines 152-155): the number of
scanlines. -/
def get_height (t : TGA) : ℕ := t.header.image_spec.height

/-- Models `TGA::set_pixel` from `src/tga.hh` (lines 157-160).  The body of
the member function is empty (marked `@INCOMPLETE` in the source), so the
image is returned unchanged and no error of any kind is reported. -/
def set_pixel (t : TGA) (_row _col : ℕ) (_p : Pixel) : TGA := t

/-- Models `std::swap(image_data[i], image_data[j])`: read both cells of the
original list, then write the two values back exchanged.  A write at an index
at or past the end of the list (undefined behavior in the C++) leaves the
list unchanged. -/
def swapAt (d : List ℕ) (i j : ℕ) : List ℕ :=
  (d.set i (d.getD j 0)).set j (d.getD i 0)

/-- Models `TGA::flip_image_vertically` from `src/tga.cc` (lines 265-275):
for each row in the lower half, swap it byte by byte with its mirror row
(byte stride `get_width()`). -/
def flip_image_vertically (t : TGA) : TGA :=
  { t with
    image_data :=
      (List.range (get_height t / 2)).foldl (fun d row =>
        (List.range (get_width t)).foldl (fun d col =>
          swapAt d (row * get_width t + col) ((get_height t - row - 1) * get_width t + col)) d)
        t.image_data }

/-- Models `TGA::flip_image_horizontally` from `src/tga.cc` (lines 277-298):
swap pixel columns about the vertical axis, one pixel byte at a time so that
multi-byte pixels are not pulled apart. -/
def flip_image_horizontally (t : TGA) : TGA :=
  { t with
    image_data :=
      (List.range (t.header.image_spec.width / 2)).foldl (fun d col =>
        (List.range (get_pixel_width t)).foldl (fun d pbyte =>
          (List.range (get_height t)).foldl (fun d row =>
            swapAt d (row * get_width t + (col * get_pixel_width t + pbyte))
              (row * get_width t +
                ((t.header.image_spec.width - 1 - col) * get_pixel_width t + pbyte))) d) d)
        t.image_data }

/-- Result of the `while` loop inside `TGA::read_rle_image_data`. -/
inductive RLELoopResult where
  /-- The loop exited through its condition; carries the final `data_len`,
  the final `pos`, and the bytes pushed onto `image_data`. -/
  | done (dataLen pos : ℕ) (out : List ℕ)
  /-- The loop attempted to read `buf` at an index at or past the buffer
  length (undefined behavior in the C++); carries the first such index and
  the output produced so far. -/
  | oob (idx : ℕ) (out : List ℕ)
  /-- Fuel ran out (never happens for the fuel supplied by
  `read_rle_image_data`). -/
  | fuelOut
deriving DecidableEq

/-- Read `n` consecutive bytes of `buf` starting at `pos`; `none` when any of
the accessed indices would be out of range (a zero-length read accesses
nothing and always succeeds). -/
def readSlice (buf : List ℕ) (pos n : ℕ) : Option (List ℕ) :=
  if n = 0 then some []
  else if pos + n ≤ buf.length then some ((buf.drop pos).take n)
  else none

/-- Models the decode loop of `TGA::read_rle_image_data` from `src/tga.cc`
(lines 157-174).  Arguments after `bytes_per_pixel` are fuel, `pos`,
`data_len` and the bytes pushed so far.  The loop reads a control byte, then
either replicates one following pixel (`run_len` times) or copies
`run_len * bytes_per_pixel` literal bytes; `data_len -= run_len *
bytes_per_pixel` is wrapping `size_t` arithmetic. -/
def rleLoop (buf : List ℕ) (bytes_per_pixel : ℕ) :
    ℕ → ℕ → ℕ → List ℕ → RLELoopResult
  | 0, _, _, _ => .fuelOut
  | fuel + 1, pos, dataLen, acc =>
    if dataLen = 0 ∨ buf.length = 0 then .done dataLen pos acc
    else
      match buf[pos]? with
      | none => .oob pos acc
      | some b =>
        let runLen := (b &&& 127) + 1
        let dataLen1 := subWrap dataLen (runLen * bytes_per_pixel)
        if b &&& 128 ≠ 0 then
          match readSlice buf (pos + 1) bytes_per_pixel with
          | none => .oob (max (pos + 1) buf.length) acc
          | some pix =>
            rleLoop buf bytes_per_pixel fuel (pos + 1 + bytes_per_pixel) dataLen1
              (acc ++ (List.replicate runLen pix).flatten)
        else
          match readSlice buf (pos + 1) (runLen * bytes_per_pixel) with
          | none => .oob (max (pos + 1) buf.length) acc
          | some lits =>
            rleLoop buf bytes_per_pixel fuel (pos + 1 + runLen * bytes_per_pixel) dataLen1
              (acc ++ lits)

/-- Outcome of `TGA::read_rle_image_data` as a whole. -/
inductive RLEFinal where
  /-- Decode finished and the closing assertion held; carries `image_data`. -/
  | ok (out : List ℕ)
  /-- The closing `assert(data_len == 0 && pos + sizeof(Footer) == buf_len)`
  failed: the process aborts. -/
  | assertAbort
  /-- The loop read past the end of the source buffer (undefined behavior in
  the C++); carries the first out-of-range index. -/
  | oobRead (idx : ℕ)
  /-- Fuel ran out (never happens with the fuel used here). -/
  | fuelOut
deriving DecidableEq

/-- Models `TGA::read_rle_image_data` from `src/tga.cc` (lines 151-176):
run the decode loop, then check the closing assertion.  The buffer length
parameter `buf_len` of the C++ is `buf.length` here.  The fuel
`buf.length + 2` is enough: every iteration advances `pos` by at least one,
and an iteration entered with `pos ≥ buf.length` terminates. -/
def read_rle_image_data (buf : List ℕ) (bytes_per_pixel data_len : ℕ) : RLEFinal :=
  match rleLoop buf bytes_per_pixel (buf.length + 2) 0 data_len [] with
  | .done d pos out => if d = 0 ∧ pos + 26 = buf.length then .ok out else .assertAbort
  | .oob idx _ => .oobRead idx
  | .fuelOut => .fuelOut

/-- The 18 bytes `fwrite(&header, sizeof(header), 1, ...)` emits: the packed
little-endian layout of `TGA::Header` (fields reduced to their machine
width). -/
def serializeHeader (h : Header) : List ℕ :=
  [h.id_length % 256, h.color_map_type % 256, h.image_type % 256]
    ++ u16bytes h.color_map_spec.first_entry_index
    ++ u16bytes h.color_map_spec.length
    ++ [h.color_map_spec.bits_per_pixel % 256]
    ++ u16bytes h.image_spec.x_origin ++ u16bytes h.image_spec.y_origin
    ++ u16bytes h.image_spec.width ++ u16bytes h.image_spec.height
    ++ [h.image_spec.bits_per_pixel % 256, h.image_spec.descriptor % 256]

/-- The 26 bytes `fwrite(&footer, sizeof(footer), 1, ...)` emits. -/
def serializeFooter (f : Footer) : List ℕ :=
  u32bytes f.ext_area_offset ++ u32bytes f.dev_dir_offset ++ padTo 18 f.signature

/-- The 495 bytes of the packed `TGA::ExtensionArea` struct, used to state
what the spec's six-record encoder would write. -/
def serializeExtArea (e : ExtensionArea) : List ℕ :=
  u16bytes e.length
    ++ padTo 41 e.author_name
    ++ padTo 324 e.author_comment
    ++ (padTo 6 e.date_time).flatMap u16bytes
    ++ padTo 41 e.job_name
    ++ (padTo 3 e.job_time).flatMap u16bytes
    ++ padTo 41 e.software_id
    ++ u16bytes e.software_version0
    ++ [e.software_version1 % 256]
    ++ padTo 4 e.key_color
    ++ (padTo 2 e.pixel_aspect).flatMap u16bytes
    ++ (padTo 2 e.gamma_value).flatMap u16bytes
    ++ u32bytes e.color_correction_offset
    ++ u32bytes e.postage_stamp_offset
    ++ u32bytes e.scan_line_tbl_offset
    ++ [e.attributes_type % 256]

/-- Outcome of `TGA::write_to_file`. -/
inductive WriteResult where
  /-- The function returned; carries the image state after the call (the
  repaint block and the two flips mutate `image_data`) and the bytes written
  to the output file. -/
  | ok (t : TGA) (bytes : List ℕ)
  /-- The opening size assertion failed: the process aborts. -/
  | assertAbort
  /-- The repaint loop `for (col = 0; col < 2000; col += off)` cannot
  terminate because `off == 0`. -/
  | diverge
deriving DecidableEq

/-- The column values visited by `for (size_t col = 0; col < 2000; col += off)`
when `off ≥ 1`. -/
def paintCols (off : ℕ) : List ℕ :=
  (List.range ((2000 + off - 1) / off)).map (fun k => k * off)

/-- One iteration of the innermost repaint loop of `TGA::write_to_file`
(lines 244-250 of `src/tga.cc`): write `0xff` at `pos + i` (overwritten with
`0` when `i == 1`), then `0xff` at `opos + i` (overwritten with `0` when
`i == 2`).  Writes through `operator[]` at an index at or past the vector
size are undefined behavior in the C++ and leave the list unchanged here. -/
def paintPixel (pos opos : ℕ) (d : List ℕ) (i : ℕ) : List ℕ :=
  let d1 := d.set (pos + i) 255
  let d2 := if i = 1 then d1.set (pos + i) 0 else d1
  let d3 := d2.set (opos + i) 255
  if i = 2 then d3.set (opos + i) 0 else d3

/-- One iteration of the middle repaint loop: compute the byte offsets `pos`
and `opos` of the current row/column (`size_t` arithmetic; note
`get_height() - row` underflows for `row > height`) and run the inner loop
over the `off` bytes of one pixel. -/
def paintAtCol (t : TGA) (off row : ℕ) (d : List ℕ) (col : ℕ) : List ℕ :=
  let pos := (get_width t * row + col) % SIZE_T_MOD
  let opos := (get_width t * subWrap (get_height t) row + col) % SIZE_T_MOD
  (List.range off).foldl (paintPixel pos opos) d

/-- One iteration of the outer repaint loop: all columns of one row. -/
def paintRow (t : TGA) (off : ℕ) (d : List ℕ) (row : ℕ) : List ℕ :=
  (paintCols off).foldl (paintAtCol t off row) d

/-- Models the repaint block at the top of `TGA::write_to_file` (lines
240-252 of `src/tga.cc`): stripes written over rows `0..39` at byte columns
`0, off, ..., < 2000`, plus a mirrored row at `get_width() * (get_height() -
row)`. -/
def paintImage (t : TGA) (off : ℕ) : List ℕ :=
  (List.range 40).foldl (paintRow t off) t.image_data

/-- The image state after the mutation phase of `TGA::write_to_file`: the
repaint block writes into `image_data`, then the image is flipped
horizontally and then vertically (lines 239-254 of `src/tga.cc`). -/
def writeImage (t : TGA) : TGA :=
  flip_image_vertically (flip_image_horizontally
    { t with image_data := paintImage t (get_pixel_width t) })

/-- Models `TGA::write_to_file` from `src/tga.cc` (lines 228-263): assert the
size invariant (`height * width * bits_per_pixel / 8` against the vector
size), repaint the debug stripes, flip horizontally then vertically, then
emit exactly five records with `fwrite`, in order: header, color-map bytes,
image-id bytes, image-data bytes, footer.  When `get_pixel_width() == 0` the
repaint loop `for (col = 0; col < 2000; col += off)` never advances and the
call never returns. -/
def write_to_file (t : TGA) : WriteResult :=
  if t.header.image_spec.height * t.header.image_spec.width *
      t.header.image_spec.bits_per_pixel / 8 ≠ t.image_data.length then
    .assertAbort
  else if get_pixel_width t = 0 then .diverge
  else
    .ok (writeImage t)
      (serializeHeader (writeImage t).header ++ (writeImage t).color_map
        ++ (writeImage t).image_id_data ++ (writeImage t).image_data
        ++ serializeFooter (writeImage t).footer)

/-- The byte stream described by the spec's encoder contract (§4.5) and by
claim C7: six records in fixed order — header with the RLE flag cleared,
color-map bytes, image-id bytes, image-data bytes, extension area, footer.
This definition follows the claim's words, for comparison with
`write_to_file`. -/
def spec_encode_six_records (t : TGA) : List ℕ :=
  serializeHeader { t.header with image_type := t.header.image_type &&& 0xf7 }
    ++ t.color_map ++ t.image_id_data ++ t.image_data
    ++ serializeExtArea t.ext_area ++ serializeFooter t.footer

/-- Field names used in the truncation error of `TGA::read_n_bytes`. -/
inductive FieldName where
  | imageId
  | colorMap
  | imageData
deriving DecidableEq

/-- The ways the decoding constructor `TGA::TGA(std::string_view)` can
terminate the process instead of returning an image.  `fail(...)` calls are
clean error exits; `assert` failures are aborts; the RLE out-of-bounds case
is undefined behavior flagged explicitly by the model. -/
inductive DErr where
  /-- `fail("cannot read TGA header from file")` in `parse_header`. -/
  | cannotReadHeader
  /-- `fail("malformed TGA header")`: `color_map_type == 0` but some
  color-map-spec field is nonzero. -/
  | malformedHeader
  /-- `fail(...)` because width, height or bits-per-pixel is zero. -/
  | zeroDimensionHeader
  /-- `fail` inside `read_n_bytes`: fewer bytes than requested. -/
  | truncated (field : FieldName) (expected actual : ℕ)
  /-- `assert((image_type & 0x7) == 0x1)` failed for a color-mapped file. -/
  | assertColorMapType
  /-- `assert(color_map.size() > 0)` failed for a color-mapped file. -/
  | assertColorMapEmpty
  /-- `fail("color-mapped images aren't supported")`. -/
  | colorMappedUnsupported
  /-- `fail("gray-scale images aren't supported")`. -/
  | grayscaleUnsupported
  /-- The closing assertion of `read_rle_image_data` failed. -/
  | rleAssert
  /-- The RLE loop read past the end of its source buffer. -/
  | rleOutOfBounds (idx : ℕ)
  /-- RLE fuel exhausted (does not happen with the fuel used). -/
  | rleFuelOut
  /-- `assert(!fseek(file, -26, SEEK_END))` failed: file shorter than the
  26-byte footer. -/
  | assertFooterSeek
deriving DecidableEq

/-- Models `TGA::parse_ext_area` from `src/tga.cc` (lines 204-218): seek to
`footer.ext_area_offset` and `fread` the 495-byte packed struct.  The `fread`
return value is ignored by the code, and `ext_area` was zero-initialized, so
bytes beyond the end of the file read as 0 here.  The three sub-table
warnings have no effect on the state. -/
def parse_ext_area (file : List ℕ) (t : TGA) : TGA :=
  let bs := padTo 495 ((file.drop t.footer.ext_area_offset).take 495)
  { t with
    ext_area :=
      { length := u16at bs 0
        author_name := (bs.drop 2).take 41
        author_comment := (bs.drop 43).take 324
        date_time := (List.range 6).map (fun i => u16at bs (367 + 2 * i))
        job_name := (bs.drop 379).take 41
        job_time := (List.range 3).map (fun i => u16at bs (420 + 2 * i))
        software_id := (bs.drop 426).take 41
        software_version0 := u16at bs 467
        software_version1 := bs.getD 469 0
        key_color := (bs.drop 470).take 4
        pixel_aspect := (List.range 2).map (fun i => u16at bs (474 + 2 * i))
        gamma_value := (List.range 2).map (fun i => u16at bs (478 + 2 * i))
        color_correction_offset := u32at bs 482
        postage_stamp_offset := u32at bs 486
        scan_line_tbl_offset := u32at bs 490
        attributes_type := bs.getD 494 0 } }

/-- The 18 signature bytes of a TGA v2 footer, `"TRUEVISION-XFILE."` plus the
terminating NUL. -/
def TRUEVISION_SIG : List ℕ :=
  [84, 82, 85, 69, 86, 73, 83, 73, 79, 78, 45, 88, 70, 73, 76, 69, 46, 0]

/-- Models `TGA::parse_footer` from `src/tga.cc` (lines 183-200): seek to
`EOF - 26` (the `assert` on `fseek` aborts when the file is shorter than 26
bytes), read the packed footer, set `is_new_format` from the signature
comparison, and read the extension area when its offset is nonzero.  The
developer-area warning has no effect on the state. -/
def parse_footer (file : List ℕ) (t : TGA) : Except DErr TGA :=
  if file.length < 26 then .error .assertFooterSeek
  else
    let base := file.length - 26
    let f : Footer :=
      { ext_area_offset := u32at file base
        dev_dir_offset := u32at file (base + 4)
        signature := (file.drop (base + 8)).take 18 }
    let t1 : TGA := { t with footer := f, is_new_format := f.signature = TRUEVISION_SIG }
    if f.ext_area_offset ≠ 0 then .ok (parse_ext_area file t1) else .ok t1

/-- Models the decoding constructor `TGA::TGA(std::string_view)` from
`src/tga.cc` (lines 30-109), reading from the file's byte contents.  Note
that the image-id, color-map and uncompressed image-data reads call
`vector::reserve` and then read into `data()`: the vector's size stays 0, so
the abstract value of those buffers after such a read is `[]` (the bytes are
still consumed from the file). -/
def decodeTGA (file : List ℕ) : Except DErr TGA := do
  if file.length < 18 then throw .cannotReadHeader
  let hd : Header :=
    { id_length := file.getD 0 0
      color_map_type := file.getD 1 0
      image_type := file.getD 2 0
      color_map_spec :=
        { first_entry_index := u16le (file.getD 3 0) (file.getD 4 0)
          length := u16le (file.getD 5 0) (file.getD 6 0)
          bits_per_pixel := file.getD 7 0 }
      image_spec :=
        { x_origin := u16le (file.getD 8 0) (file.getD 9 0)
          y_origin := u16le (file.getD 10 0) (file.getD 11 0)
          width := u16le (file.getD 12 0) (file.getD 13 0)
          height := u16le (file.getD 14 0) (file.getD 15 0)
          bits_per_pixel := file.getD 16 0
          descriptor := file.getD 17 0 } }
  if hd.color_map_type = 0 ∧
      (hd.color_map_spec.bits_per_pixel ≠ 0 ∨ hd.color_map_spec.first_entry_index ≠ 0 ∨
        hd.color_map_spec.length ≠ 0) then
    throw .malformedHeader
  if hd.image_spec.width = 0 ∨ hd.image_spec.height = 0 ∨
      hd.image_spec.bits_per_pixel = 0 then
    throw .zeroDimensionHeader
  -- image id field (`reserve` + read into `data()`: size stays 0)
  if file.length - 18 < hd.id_length then
    throw (.truncated .imageId hd.id_length (file.length - 18))
  let image_id_data : List ℕ := []
  let c1 := 18 + hd.id_length
  -- color map field (same `reserve` + `data()` pattern)
  let bytes_per_entry := hd.color_map_spec.bits_per_pixel / 8 +
    (if hd.color_map_spec.bits_per_pixel % 8 = 0 then 0 else 1)
  let cmLen := hd.color_map_spec.length * bytes_per_entry
  if file.length - c1 < cmLen then
    throw (.truncated .colorMap cmLen (file.length - c1))
  let color_map : List ℕ := []
  let c2 := c1 + cmLen
  if hd.color_map_type = 1 then
    if ¬ hd.image_type &&& 7 = 1 then throw .assertColorMapType
    if ¬ 0 < color_map.length then throw .assertColorMapEmpty
    throw .colorMappedUnsupported
  if hd.color_map_type = 0 ∧ hd.image_type &&& 7 = 3 then
    throw .grayscaleUnsupported
  let pbw := hd.image_spec.bits_per_pixel / 8 +
    (if hd.image_spec.bits_per_pixel % 8 = 0 then 0 else 1)
  let len := hd.image_spec.height * hd.image_spec.width * pbw
  let image_data : List ℕ ←
    if hd.image_type &&& 8 = 0 then do
      -- uncompressed path: `reserve` + read into `data()`, size stays 0
      if file.length - c2 < len then
        throw (.truncated .imageData len (file.length - c2))
      pure ([] : List ℕ)
    else do
      -- RLE path: `fread` at most `len` bytes, then decode
      let buf := (file.drop c2).take len
      match read_rle_image_data buf pbw len with
      | .ok out => pure out
      | .assertAbort => throw .rleAssert
      | .oobRead idx => throw (.rleOutOfBounds idx)
      | .fuelOut => throw .rleFuelOut
  let t0 : TGA :=
    { header := { hd with image_type := hd.image_type &&& 0xf7 }
      footer := zeroFooter
      ext_area := zeroExtArea
      is_new_format := false
      color_map := color_map
      image_data := image_data
      image_id_data := image_id_data }
  let t1 := if hd.image_spec.descriptor &&& 0x20 ≠ 0 then flip_image_vertically t0 else t0
  let t2 := if hd.image_spec.descriptor &&& 0x10 ≠ 0 then flip_image_horizontally t1 else t1
  let t3 : TGA :=
    { t2 with
      header :=
        { t2.header with
          image_spec := { t2.header.image_spec with descriptor := hd.image_spec.descriptor &&& 0xcf } } }
  parse_footer file t3

/-- The bytes written by a completed `write_to_file` call, when it returned. -/
def writtenBytes : WriteResult → Option (List ℕ)
  | .ok _ bs => some bs
  | _ => none

/-- The in-memory `image_data` after a completed `write_to_file` call. -/
def writtenImageData : WriteResult → Option (List ℕ)
  | .ok t _ => some t.image_data
  | _ => none

/-- The error of a failed decode, if any. -/
def decodeError : Except DErr TGA → Option DErr
  | .error e => some e
  | .ok _ => none

/-- A concrete in-memory image: one pixel, 32 bits per pixel, uncompressed
true-color, pixel bytes `[1, 2, 3, 4]`, consistent with its header. -/
def sample1x1 : TGA :=
  { header :=
      { id_length := 0, color_map_type := 0, image_type := 2
        color_map_spec := { first_entry_index := 0, length := 0, bits_per_pixel := 0 }
        image_spec :=
          { x_origin := 0, y_origin := 0, width := 1, height := 1
            bits_per_pixel := 32, descriptor := 0 } }
    footer := zeroFooter
    ext_area := zeroExtArea
    is_new_format := false
    color_map := []
    image_data := [1, 2, 3, 4]
    image_id_data := [] }

/-- Header of a 1×1, 8-bits-per-pixel, uncompressed true-color file. -/
def header1x1x8 : Header :=
  { id_length := 0, color_map_type := 0, image_type := 2
    color_map_spec := { first_entry_index := 0, length := 0, bits_per_pixel := 0 }
    image_spec :=
      { x_origin := 0, y_origin := 0, width := 1, height := 1
        bits_per_pixel := 8, descriptor := 0 } }

/-- A complete well-formed uncompressed file: header, one image-data byte,
all-zero 26-byte footer. -/
def fileUncompressed1x1 : List ℕ :=
  serializeHeader header1x1x8 ++ [9] ++ List.replicate 26 0

/-- Header of a color-mapped file (`color_map_type = 1`, base image type 1)
with a two-entry, 24-bit color map and a 1×1, 24-bits-per-pixel image. -/
def headerColorMapped : Header :=
  { id_length := 0, color_map_type := 1, image_type := 1
    color_map_spec := { first_entry_index := 0, length := 2, bits_per_pixel := 24 }
    image_spec :=
      { x_origin := 0, y_origin := 0, width := 1, height := 1
        bits_per_pixel := 24, descriptor := 0 } }

/-- A color-mapped input file: header, six color-map bytes, zero footer. -/
def fileColorMapped : List ℕ :=
  serializeHeader headerColorMapped ++ [1, 2, 3, 4, 5, 6] ++ List.replicate 26 0

/-- Header of a 3×1, 32-bits-per-pixel uncompressed true-color file. -/
def header3x1x32 : Header :=
  { id_length := 0, color_map_type := 0, image_type := 2
    color_map_spec := { first_entry_index := 0, length := 0, bits_per_pixel := 0 }
    image_spec :=
      { x_origin := 0, y_origin := 0, width := 3, height := 1
        bits_per_pixel := 32, descriptor := 0 } }

/-- A complete well-formed uncompressed 3×1 file: header, 12 image-data
bytes, zero footer. -/
def fileWidth3 : List ℕ :=
  serializeHeader header3x1x32 ++ List.replicate 12 7 ++ List.replicate 26 0

/-- The image produced by decoding `fileWidth3` (spelled out; the pixel
bytes are lost to the `reserve`-instead-of-`resize` read, so `image_data`
is empty). -/
def decodedWidth3 : TGA :=
  { header := header3x1x32
    footer := zeroFooter
    ext_area := zeroExtArea
    is_new_format := false
    color_map := []
    image_data := []
    image_id_data := [] }

/-- The image `write_to_file sample1x1` leaves in memory: the repaint block
overwrites the pixel bytes (the two flips are identities on a one-pixel
image). -/
def paintedSample : TGA := { sample1x1 with image_data := [255, 255, 0, 255] }

/-- The 48 bytes `write_to_file sample1x1` writes: serialized header, the
mutated image data, serialized all-zero footer. -/
def sampleBytes : List ℕ :=
  [0, 0, 2, 0, 0, 0, 0, 0, 0, 0, 0, 0, 1, 0, 1, 0, 32, 0,
   255, 255, 0, 255,
   0, 0, 0, 0, 0, 0, 0, 0, 0, 0, 0, 0, 0, 0, 0, 0, 0, 0, 0, 0, 0, 0, 0, 0, 0, 0]

/-- Header of a grayscale file (base image type 3). -/
def headerGrayscale : Header :=
  { id_length := 0, color_map_type := 0, image_type := 3
    color_map_spec := { first_entry_index := 0, length := 0, bits_per_pixel := 0 }
    image_spec :=
      { x_origin := 0, y_origin := 0, width := 1, height := 1
        bits_per_pixel := 8, descriptor := 0 } }

/-- A grayscale input file (the decode rejects it before reading past the
header). -/
def fileGrayscale : List ℕ := serializeHeader headerGrayscale

/-- A well-formed TGA RLE packet, used to state claim C4: `runPkt n pix` is a
run-length packet (control byte `0x80 ||| (n - 1)`, followed by one pixel of
`pixel_byte_width` bytes, expanded to `n` copies); `rawPkt n lits` is a raw
packet (control byte `n - 1`, followed by `n * pixel_byte_width` literal
bytes copied verbatim). -/
inductive RLEPacket where
  | runPkt (n : ℕ) (pix : List ℕ)
  | rawPkt (n : ℕ) (lits : List ℕ)
deriving DecidableEq

/-- The on-disk bytes of a packet. -/
def RLEPacket.bytes : RLEPacket → List ℕ
  | .runPkt n pix => (128 + (n - 1)) :: pix
  | .rawPkt n lits => (n - 1) :: lits

/-- The decoded output a packet describes. -/
def RLEPacket.output : RLEPacket → List ℕ
  | .runPkt n pix => (List.replicate n pix).flatten
  | .rawPkt _ lits => lits

/-- Well-formedness of a packet at a given pixel byte width. -/
def RLEPacket.WF (bpp : ℕ) : RLEPacket → Prop
  | .runPkt n pix => 1 ≤ n ∧ n ≤ 128 ∧ pix.length = bpp
  | .rawPkt n lits => 1 ≤ n ∧ n ≤ 128 ∧ lits.length = n * bpp

/-- The byte stream of a packet sequence. -/
def packetStream (ps : List RLEPacket) : List ℕ := ps.flatMap RLEPacket.bytes

/-- The decoded output of a packet sequence. -/
def packetOutput (ps : List RLEPacket) : List ℕ := ps.flatMap RLEPacket.output

/-- A fold of `swapAt` steps over a list of index pairs; both flips are
instances of this shape. -/
def swapsList (d : List ℕ) (ps : List (ℕ × ℕ)) : List ℕ :=
  ps.foldl (fun d p => swapAt d p.1 p.2) d

/-- Two index pairs touch entirely different cells. -/
def DisjPair (p q : ℕ × ℕ) : Prop :=
  p.1 ≠ q.1 ∧ p.1 ≠ q.2 ∧ p.2 ≠ q.1 ∧ p.2 ≠ q.2

/-- The index pairs swapped by `flip_image_vertically` on an image of height
`h` and byte width `W`, in loop order. -/
def vPairs (h W : ℕ) : List (ℕ × ℕ) :=
  (List.range (h / 2)).flatMap (fun row =>
    (List.range W).map (fun col => (row * W + col, (h - row - 1) * W + col)))

/-- The index pairs swapped by `flip_image_horizontally` on an image of
height `h`, byte width `W`, pixel byte width `bpp` and pixel width `wpx`, in
loop order. -/
def hPairs (h W bpp wpx : ℕ) : List (ℕ × ℕ) :=
  (List.range (wpx / 2)).flatMap (fun col =>
    (List.range bpp).flatMap (fun pbyte =>
      (List.range h).map (fun row =>
        (row * W + (col * bpp + pbyte), row * W + ((wpx - 1 - col) * bpp + pbyte)))))

end Renderer


namespace Renderer

theorem subWrap_of_le {a b : ℕ} (hb : b ≤ a) (ha : a < SIZE_T_MOD) : subWrap a b = a - b := by
  simp only [subWrap, SIZE_T_MOD] at *
  omega

theorem foldl_noop {α β : Type} (f : β → α → β) (l : List α) (d : β)
    (h : ∀ x ∈ l, f d x = d) : l.foldl f d = d := by
  induction l with
  | nil => rfl
  | cons x xs ih =>
    rw [List.foldl_cons, h x (List.mem_cons_self x xs)]
    exact ih (fun y hy => h y (List.mem_cons_of_mem x hy))

theorem paintPixel_noop {pos opos : ℕ} {d : List ℕ} (i : ℕ)
    (hp : d.length ≤ pos) (ho : d.length ≤ opos) : paintPixel pos opos d i = d := by
  simp only [paintPixel]
  rw [show d.set (pos + i) (255 : ℕ) = d from List.set_eq_of_length_le (by omega)]
  rw [show d.set (pos + i) (0 : ℕ) = d from List.set_eq_of_length_le (by omega), ite_self]
  rw [show d.set (opos + i) (255 : ℕ) = d from List.set_eq_of_length_le (by omega)]
  rw [show d.set (opos + i) (0 : ℕ) = d from List.set_eq_of_length_le (by omega), ite_self]

theorem paintFold_noop {pos opos : ℕ} (n : ℕ) {d : List ℕ}
    (hp : d.length ≤ pos) (ho : d.length ≤ opos) :
    (List.range n).foldl (paintPixel pos opos) d = d :=
  foldl_noop _ _ _ (fun i _ => paintPixel_noop i hp ho)

theorem paintFold4_opos0 {pos : ℕ} (hp : 4 ≤ pos) (a b c e : ℕ) :
    (List.range 4).foldl (paintPixel pos 0) [a, b, c, e] = [255, 255, 0, 255] := by
  have h0 : paintPixel pos 0 [a, b, c, e] 0 = [255, b, c, e] := by
    rw [show paintPixel pos 0 [a, b, c, e] 0
          = ([a, b, c, e].set (pos + 0) 255).set (0 + 0) 255 from rfl]
    rw [show ([a, b, c, e] : List ℕ).set (pos + 0) 255 = [a, b, c, e] from
      List.set_eq_of_length_le (by simp; omega)]
    rfl
  have h1 : paintPixel pos 0 [255, b, c, e] 1 = [255, 255, c, e] := by
    rw [show paintPixel pos 0 [255, b, c, e] 1
          = ((([255, b, c, e].set (pos + 1) 255).set (pos + 1) 0).set (0 + 1) 255) from rfl]
    rw [show ([255, b, c, e] : List ℕ).set (pos + 1) 255 = [255, b, c, e] from
      List.set_eq_of_length_le (by simp; omega)]
    rw [show ([255, b, c, e] : List ℕ).set (pos + 1) 0 = [255, b, c, e] from
      List.set_eq_of_length_le (by simp; omega)]
    rfl
  have h2 : paintPixel pos 0 [255, 255, c, e] 2 = [255, 255, 0, e] := by
    rw [show paintPixel pos 0 [255, 255, c, e] 2
          = ((([255, 255, c, e].set (pos + 2) 255).set (0 + 2) 255).set (0 + 2) 0) from rfl]
    rw [show ([255, 255, c, e] : List ℕ).set (pos + 2) 255 = [255, 255, c, e] from
      List.set_eq_of_length_le (by simp; omega)]
    rfl
  have h3 : paintPixel pos 0 [255, 255, 0, e] 3 = [255, 255, 0, 255] := by
    rw [show paintPixel pos 0 [255, 255, 0, e] 3
          = (([255, 255, 0, e].set (pos + 3) 255).set (0 + 3) 255) from rfl]
    rw [show ([255, 255, 0, e] : List ℕ).set (pos + 3) 255 = [255, 255, 0, e] from
      List.set_eq_of_length_le (by simp; omega)]
    rfl
  rw [show (List.range 4).foldl (paintPixel pos 0) [a, b, c, e]
        = paintPixel pos 0 (paintPixel pos 0 (paintPixel pos 0
            (paintPixel pos 0 [a, b, c, e] 0) 1) 2) 3 from rfl]
  rw [h0, h1, h2, h3]

theorem paintFold4_pos0 {opos : ℕ} (ho : 4 ≤ opos) (a b c e : ℕ) :
    (List.range 4).foldl (paintPixel 0 opos) [a, b, c, e] = [255, 0, 255, 255] := by
  have h0 : paintPixel 0 opos [a, b, c, e] 0 = [255, b, c, e] := by
    rw [show paintPixel 0 opos [a, b, c, e] 0
          = ([255, b, c, e] : List ℕ).set (opos + 0) 255 from rfl]
    exact List.set_eq_of_length_le (by simp; omega)
  have h1 : paintPixel 0 opos [255, b, c, e] 1 = [255, 0, c, e] := by
    rw [show paintPixel 0 opos [255, b, c, e] 1
          = ([255, 0, c, e] : List ℕ).set (opos + 1) 255 from rfl]
    exact List.set_eq_of_length_le (by simp; omega)
  have h2 : paintPixel 0 opos [255, 0, c, e] 2 = [255, 0, 255, e] := by
    rw [show paintPixel 0 opos [255, 0, c, e] 2
          = (([255, 0, 255, e] : List ℕ).set (opos + 2) 255).set (opos + 2) 0 from rfl]
    rw [show ([255, 0, 255, e] : List ℕ).set (opos + 2) 255 = [255, 0, 255, e] from
      List.set_eq_of_length_le (by simp; omega)]
    exact List.set_eq_of_length_le (by simp; omega)
  have h3 : paintPixel 0 opos [255, 0, 255, e] 3 = [255, 0, 255, 255] := by
    rw [show paintPixel 0 opos [255, 0, 255, e] 3
          = ([255, 0, 255, 255] : List ℕ).set (opos + 3) 255 from rfl]
    exact List.set_eq_of_length_le (by simp; omega)
  rw [show (List.range 4).foldl (paintPixel 0 opos) [a, b, c, e]
        = paintPixel 0 opos (paintPixel 0 opos (paintPixel 0 opos
            (paintPixel 0 opos [a, b, c, e] 0) 1) 2) 3 from rfl]
  rw [h0, h1, h2, h3]

theorem exists_len4 (d : List ℕ) (hd : d.length = 4) : ∃ a b c e, d = [a, b, c, e] := by
  cases d with
  | nil => simp at hd
  | cons a d =>
    cases d with
    | nil => simp at hd
    | cons b d =>
      cases d with
      | nil => simp at hd
      | cons c d =>
        cases d with
        | nil => simp at hd
        | cons e d =>
          cases d with
          | nil => exact ⟨a, b, c, e, rfl⟩
          | cons f d => simp at hd

theorem get_width_sample : get_width sample1x1 = 4 := rfl

theorem get_height_sample : get_height sample1x1 = 1 := rfl

theorem get_pixel_width_sample : get_pixel_width sample1x1 = 4 := rfl

theorem paintAtCol_row0_noop (k : ℕ) (hk1 : 1 ≤ k) (hk : k ≤ 499) {d : List ℕ}
    (hd : d.length = 4) : paintAtCol sample1x1 4 0 d (k * 4) = d := by
  simp only [paintAtCol, get_width_sample, get_height_sample]
  apply paintFold_noop <;> rw [hd] <;> simp only [subWrap, SIZE_T_MOD] <;> omega

theorem paintAtCol_row0_hit (a b c e : ℕ) :
    paintAtCol sample1x1 4 0 [a, b, c, e] (0 * 4) = [255, 0, 255, 255] := by
  simp only [paintAtCol, get_width_sample, get_height_sample]
  have hp : (4 * 0 + 0 * 4) % SIZE_T_MOD = 0 := by simp only [SIZE_T_MOD]; omega
  have ho : (4 * subWrap 1 0 + 0 * 4) % SIZE_T_MOD = 4 := by
    simp only [subWrap, SIZE_T_MOD]; omega
  rw [hp, ho]
  exact paintFold4_pos0 (by omega) a b c e

theorem paintAtCol_row_noop (r k : ℕ) (hr1 : 1 ≤ r) (hr : r ≤ 39) (hk : k ≤ 499)
    (hne : k ≠ r - 1) {d : List ℕ} (hd : d.length = 4) :
    paintAtCol sample1x1 4 r d (k * 4) = d := by
  simp only [paintAtCol, get_width_sample, get_height_sample]
  apply paintFold_noop <;> rw [hd] <;> simp only [subWrap, SIZE_T_MOD] <;> omega

theorem paintAtCol_row_hit (r : ℕ) (hr1 : 1 ≤ r) (hr : r ≤ 39) (a b c e : ℕ) :
    paintAtCol sample1x1 4 r [a, b, c, e] ((r - 1) * 4) = [255, 255, 0, 255] := by
  simp only [paintAtCol, get_width_sample, get_height_sample]
  have ho : (4 * subWrap 1 r + (r - 1) * 4) % SIZE_T_MOD = 0 := by
    simp only [subWrap, SIZE_T_MOD]; omega
  rw [ho]
  exact paintFold4_opos0 (by simp only [SIZE_T_MOD]; omega) a b c e

theorem paintRowFold_row0 : ∀ n, 1 ≤ n → n ≤ 500 → ∀ a b c e : ℕ,
    ((List.range n).map (fun k => k * 4)).foldl (paintAtCol sample1x1 4 0) [a, b, c, e]
      = [255, 0, 255, 255] := by
  intro n
  induction n with
  | zero => omega
  | succ n ih =>
    intro _ h500 a b c e
    rcases Nat.eq_zero_or_pos n with h0 | hpos
    · subst h0
      rw [show ((List.range 1).map (fun k => k * 4)) = [0 * 4] from rfl, List.foldl_cons,
        List.foldl_nil, paintAtCol_row0_hit]
    · rw [List.range_succ, List.map_append, List.foldl_append]
      rw [ih (by omega) (by omega) a b c e]
      rw [show List.map (fun k => k * 4) [n] = [n * 4] from rfl, List.foldl_cons, List.foldl_nil]
      exact paintAtCol_row0_noop n (by omega) (by omega) rfl

theorem paintRowFold_noop (r : ℕ) (hr1 : 1 ≤ r) (hr : r ≤ 39) :
    ∀ n, n ≤ r - 1 → ∀ d : List ℕ, d.length = 4 →
    ((List.range n).map (fun k => k * 4)).foldl (paintAtCol sample1x1 4 r) d = d := by
  intro n
  induction n with
  | zero => intro _ d _; rfl
  | succ n ih =>
    intro hn d hd
    rw [List.range_succ, List.map_append, List.foldl_append]
    rw [ih (by omega) d hd]
    rw [show List.map (fun k => k * 4) [n] = [n * 4] from rfl, List.foldl_cons, List.foldl_nil]
    exact paintAtCol_row_noop r n hr1 hr (by omega) (by omega) hd

theorem paintRowFold_row (r : ℕ) (hr1 : 1 ≤ r) (hr : r ≤ 39) :
    ∀ n, r ≤ n → n ≤ 500 → ∀ d : List ℕ, d.length = 4 →
    ((List.range n).map (fun k => k * 4)).foldl (paintAtCol sample1x1 4 r) d
      = [255, 255, 0, 255] := by
  intro n
  induction n with
  | zero => omega
  | succ n ih =>
    intro hrn h500 d hd
    rcases Nat.lt_or_ge n r with hlt | hge
    · -- n + 1 = r : the prefix is all no-ops, the last column hits
      have hnr : n = r - 1 := by omega
      obtain ⟨a, b, c, e, rfl⟩ := exists_len4 d hd
      rw [List.range_succ, List.map_append, List.foldl_append]
      rw [paintRowFold_noop r hr1 hr n (by omega) _ hd]
      rw [show List.map (fun k => k * 4) [n] = [n * 4] from rfl, List.foldl_cons, List.foldl_nil]
      rw [hnr]
      exact paintAtCol_row_hit r hr1 hr a b c e
    · rw [List.range_succ, List.map_append, List.foldl_append]
      rw [ih hge (by omega) d hd]
      rw [show List.map (fun k => k * 4) [n] = [n * 4] from rfl, List.foldl_cons, List.foldl_nil]
      exact paintAtCol_row_noop r n hr1 hr (by omega) (by omega) rfl

theorem paintCols4 : paintCols 4 = (List.range 500).map (fun k => k * 4) := by
  simp only [paintCols]

theorem paintRow_sample_zero (a b c e : ℕ) :
    paintRow sample1x1 4 [a, b, c, e] 0 = [255, 0, 255, 255] := by
  rw [paintRow, paintCols4]
  exact paintRowFold_row0 500 (by omega) (by omega) a b c e

theorem paintRow_sample_pos (r : ℕ) (hr1 : 1 ≤ r) (hr : r ≤ 39) (d : List ℕ)
    (hd : d.length = 4) : paintRow sample1x1 4 d r = [255, 255, 0, 255] := by
  rw [paintRow, paintCols4]
  exact paintRowFold_row r hr1 hr 500 (by omega) (by omega) d hd

theorem paintRowsFold : ∀ n, 1 ≤ n → n ≤ 39 → ∀ d : List ℕ, d.length = 4 →
    ((List.range n).map Nat.succ).foldl (paintRow sample1x1 4) d = [255, 255, 0, 255] := by
  intro n
  induction n with
  | zero => omega
  | succ n ih =>
    intro _ h39 d hd
    rcases Nat.eq_zero_or_pos n with h0 | hpos
    · subst h0
      rw [show (List.range 1).map Nat.succ = [1] from rfl, List.foldl_cons, List.foldl_nil]
      exact paintRow_sample_pos 1 (by omega) (by omega) d hd
    · rw [List.range_succ, List.map_append, List.foldl_append]
      rw [ih (by omega) (by omega) d hd]
      rw [show List.map Nat.succ [n] = [n + 1] from rfl, List.foldl_cons, List.foldl_nil]
      exact paintRow_sample_pos (n + 1) (by omega) (by omega) _ rfl

theorem paintImage_sample : paintImage sample1x1 4 = [255, 255, 0, 255] := by
  rw [paintImage, List.range_succ_eq_map, List.foldl_cons]
  rw [show sample1x1.image_data = [1, 2, 3, 4] from rfl]
  rw [paintRow_sample_zero]
  exact paintRowsFold 39 (by omega) (by omega) _ rfl

theorem and127_high {m : ℕ} (h : m < 128) : (128 + m) &&& 127 = m := by
  rw [show (127 : ℕ) = 2 ^ 7 - 1 from rfl, Nat.and_pow_two_sub_one_eq_mod]
  omega

theorem and127_low {m : ℕ} (h : m < 128) : m &&& 127 = m := by
  rw [show (127 : ℕ) = 2 ^ 7 - 1 from rfl, Nat.and_pow_two_sub_one_eq_mod]
  omega

theorem and128_low {m : ℕ} (h : m < 128) : m &&& 128 = 0 := by
  have h2 := Nat.and_two_pow m 7
  rw [Nat.testBit_lt_two_pow h] at h2
  norm_num at h2
  exact h2

theorem and128_high {m : ℕ} (h : m < 128) : (128 + m) &&& 128 = 128 := by
  have ht : (128 + m).testBit 7 = true := by
    rw [Nat.testBit_to_div_mod]
    apply decide_eq_true
    omega
  have h2 := Nat.and_two_pow (128 + m) 7
  rw [ht] at h2
  norm_num at h2
  exact h2

theorem getElem?_append_cons (pre : List ℕ) (x : ℕ) (l : List ℕ) :
    (pre ++ x :: l)[pre.length]? = some x := by
  rw [List.getElem?_append_right (Nat.le_refl _)]
  simp

theorem readSlice_append (a mid c : List ℕ) :
    readSlice (a ++ (mid ++ c)) a.length mid.length = some mid := by
  unfold readSlice
  by_cases h : mid.length = 0
  · rw [if_pos h, List.eq_nil_of_length_eq_zero h]
  · rw [if_neg h, if_pos (by simp [List.length_append])]
    rw [List.drop_left, List.take_left]

theorem length_flatten_replicate (n : ℕ) (l : List ℕ) :
    (List.replicate n l).flatten.length = n * l.length := by
  induction n with
  | zero => simp
  | succ n ih =>
    rw [List.replicate_succ, List.flatten_cons, List.length_append, ih, Nat.succ_mul]
    omega

theorem length_le_packetStream (ps : List RLEPacket) : ps.length ≤ (packetStream ps).length := by
  induction ps with
  | nil => simp [packetStream]
  | cons p ps ih =>
    simp only [packetStream, List.flatMap_cons, List.length_append, List.length_cons] at *
    have h1 : 1 ≤ p.bytes.length := by cases p <;> simp [RLEPacket.bytes]
    omega

theorem rleLoop_step_run {bpp n : ℕ} (pix : List ℕ) (hbpp : 1 ≤ bpp) (hn1 : 1 ≤ n)
    (hn : n ≤ 128) (hpix : pix.length = bpp) (pre tail acc : List ℕ) (f dataRest : ℕ)
    (hmod : n * bpp + dataRest < SIZE_T_MOD) :
    rleLoop (pre ++ (128 + (n - 1)) :: (pix ++ tail)) bpp (f + 1) pre.length
        (n * bpp + dataRest) acc
      = rleLoop (pre ++ (128 + (n - 1)) :: (pix ++ tail)) bpp f (pre.length + 1 + bpp)
          dataRest (acc ++ (List.replicate n pix).flatten) := by
  have hlen0 : (pre ++ (128 + (n - 1)) :: (pix ++ tail)).length ≠ 0 := by
    simp [List.length_append]
  have hdl : ¬ (n * bpp + dataRest = 0 ∨ (pre ++ (128 + (n - 1)) :: (pix ++ tail)).length = 0) := by
    push_neg
    constructor
    · have : 1 ≤ n * bpp := Nat.one_le_iff_ne_zero.mpr (Nat.mul_ne_zero (by omega) (by omega))
      omega
    · exact hlen0
  rw [show rleLoop (pre ++ (128 + (n - 1)) :: (pix ++ tail)) bpp (f + 1) pre.length
        (n * bpp + dataRest) acc =
      (if n * bpp + dataRest = 0 ∨ (pre ++ (128 + (n - 1)) :: (pix ++ tail)).length = 0 then
        RLELoopResult.done (n * bpp + dataRest) pre.length acc
      else
        match (pre ++ (128 + (n - 1)) :: (pix ++ tail))[pre.length]? with
        | none => RLELoopResult.oob pre.length acc
        | some b =>
          let runLen := (b &&& 127) + 1
          let dataLen1 := subWrap (n * bpp + dataRest) (runLen * bpp)
          if b &&& 128 ≠ 0 then
            match readSlice (pre ++ (128 + (n - 1)) :: (pix ++ tail)) (pre.length + 1) bpp with
            | none => RLELoopResult.oob (max (pre.length + 1)
                (pre ++ (128 + (n - 1)) :: (pix ++ tail)).length) acc
            | some pix2 =>
              rleLoop (pre ++ (128 + (n - 1)) :: (pix ++ tail)) bpp f
                (pre.length + 1 + bpp) dataLen1
                (acc ++ (List.replicate runLen pix2).flatten)
          else
            match readSlice (pre ++ (128 + (n - 1)) :: (pix ++ tail)) (pre.length + 1)
                (runLen * bpp) with
            | none => RLELoopResult.oob (max (pre.length + 1)
                (pre ++ (128 + (n - 1)) :: (pix ++ tail)).length) acc
            | some lits =>
              rleLoop (pre ++ (128 + (n - 1)) :: (pix ++ tail)) bpp f
                (pre.length + 1 + runLen * bpp) dataLen1 (acc ++ lits)) from rfl]
  rw [if_neg hdl]
  rw [getElem?_append_cons]
  simp only
  rw [and127_high (by omega), and128_high (by omega)]
  rw [if_pos (by omega)]
  rw [show pre.length + 1 = (pre ++ [128 + (n - 1)]).length from by simp]
  rw [show pre ++ (128 + (n - 1)) :: (pix ++ tail) = (pre ++ [128 + (n - 1)]) ++ (pix ++ tail)
      from by simp]
  rw [show bpp = pix.length from hpix.symm]
  rw [readSlice_append]
  simp only
  rw [show n - 1 + 1 = n from by omega]
  rw [show subWrap (n * pix.length + dataRest) (n * pix.length) = dataRest from by
    rw [subWrap_of_le (by omega) (by rw [hpix]; exact hmod)]
    omega]

theorem rleLoop_step_raw {bpp n : ℕ} (lits : List ℕ) (hbpp : 1 ≤ bpp) (hn1 : 1 ≤ n)
    (hn : n ≤ 128) (hlits : lits.length = n * bpp) (pre tail acc : List ℕ) (f dataRest : ℕ)
    (hmod : n * bpp + dataRest < SIZE_T_MOD) :
    rleLoop (pre ++ (n - 1) :: (lits ++ tail)) bpp (f + 1) pre.length
        (n * bpp + dataRest) acc
      = rleLoop (pre ++ (n - 1) :: (lits ++ tail)) bpp f (pre.length + 1 + n * bpp)
          dataRest (acc ++ lits) := by
  have hdl : ¬ (n * bpp + dataRest = 0 ∨ (pre ++ (n - 1) :: (lits ++ tail)).length = 0) := by
    push_neg
    constructor
    · have : 1 ≤ n * bpp := Nat.one_le_iff_ne_zero.mpr (Nat.mul_ne_zero (by omega) (by omega))
      omega
    · simp [List.length_append]
  rw [show rleLoop (pre ++ (n - 1) :: (lits ++ tail)) bpp (f + 1) pre.length
        (n * bpp + dataRest) acc =
      (if n * bpp + dataRest = 0 ∨ (pre ++ (n - 1) :: (lits ++ tail)).length = 0 then
        RLELoopResult.done (n * bpp + dataRest) pre.length acc
      else
        match (pre ++ (n - 1) :: (lits ++ tail))[pre.length]? with
        | none => RLELoopResult.oob pre.length acc
        | some b =>
          let runLen := (b &&& 127) + 1
          let dataLen1 := subWrap (n * bpp + dataRest) (runLen * bpp)
          if b &&& 128 ≠ 0 then
            match readSlice (pre ++ (n - 1) :: (lits ++ tail)) (pre.length + 1) bpp with
            | none => RLELoopResult.oob (max (pre.length + 1)
                (pre ++ (n - 1) :: (lits ++ tail)).length) acc
            | some pix2 =>
              rleLoop (pre ++ (n - 1) :: (lits ++ tail)) bpp f
                (pre.length + 1 + bpp) dataLen1
                (acc ++ (List.replicate runLen pix2).flatten)
          else
            match readSlice (pre ++ (n - 1) :: (lits ++ tail)) (pre.length + 1)
                (runLen * bpp) with
            | none => RLELoopResult.oob (max (pre.length + 1)
                (pre ++ (n - 1) :: (lits ++ tail)).length) acc
            | some lits2 =>
              rleLoop (pre ++ (n - 1) :: (lits ++ tail)) bpp f
                (pre.length + 1 + runLen * bpp) dataLen1 (acc ++ lits2)) from rfl]
  rw [if_neg hdl]
  rw [getElem?_append_cons]
  simp only
  rw [and127_low (by omega), and128_low (by omega)]
  rw [if_neg (by simp)]
  rw [show n - 1 + 1 = n from by omega]
  rw [show pre.length + 1 = (pre ++ [n - 1]).length from by simp]
  rw [show pre ++ (n - 1) :: (lits ++ tail) = (pre ++ [n - 1]) ++ (lits ++ tail)
      from by simp]
  rw [show n * bpp = lits.length from hlits.symm]
  rw [readSlice_append]
  simp only
  rw [show subWrap (lits.length + dataRest) lits.length = dataRest from by
    rw [subWrap_of_le (by omega) (by rw [hlits]; exact hmod)]
    omega]

theorem rleLoop_packets {bpp : ℕ} (hbpp : 1 ≤ bpp) :
    ∀ (ps : List RLEPacket) (pre rest acc : List ℕ) (fuel : ℕ),
      (∀ p ∈ ps, p.WF bpp) → ps.length < fuel →
      (packetOutput ps).length < SIZE_T_MOD →
      rleLoop (pre ++ (packetStream ps ++ rest)) bpp fuel pre.length
          (packetOutput ps).length acc
        = RLELoopResult.done 0 (pre.length + (packetStream ps).length)
            (acc ++ packetOutput ps) := by
  intro ps
  induction ps with
  | nil =>
    intro pre rest acc fuel _ hfuel _
    cases fuel with
    | zero => omega
    | succ f =>
      simp [rleLoop, packetStream, packetOutput]
  | cons p ps ih =>
    intro pre rest acc fuel hwf hfuel hmod
    cases fuel with
    | zero => omega
    | succ f =>
      have hwfp := hwf p (List.mem_cons_self _ _)
      have hmod' : (packetOutput (p :: ps)).length
          = p.output.length + (packetOutput ps).length := by
        simp [packetOutput, List.flatMap_cons]
      cases p with
      | runPkt n pix =>
        obtain ⟨hn1, hn, hpix⟩ := hwfp
        have hout : (RLEPacket.runPkt n pix).output.length = n * bpp := by
          simp only [RLEPacket.output, length_flatten_replicate, hpix]
        have hbuf : pre ++ (packetStream (RLEPacket.runPkt n pix :: ps) ++ rest)
            = pre ++ (128 + (n - 1)) :: (pix ++ (packetStream ps ++ rest)) := by
          simp [packetStream, List.flatMap_cons, RLEPacket.bytes]
        rw [hbuf, hmod', hout]
        rw [rleLoop_step_run pix hbpp hn1 hn hpix pre (packetStream ps ++ rest) acc f
          (packetOutput ps).length (by rw [hmod', hout] at hmod; exact hmod)]
        have hbuf2 : pre ++ (128 + (n - 1)) :: (pix ++ (packetStream ps ++ rest))
            = (pre ++ (128 + (n - 1)) :: pix) ++ (packetStream ps ++ rest) := by
          simp
        have hpos : pre.length + 1 + bpp = (pre ++ (128 + (n - 1)) :: pix).length := by
          simp [hpix]
          omega
        rw [hbuf2, hpos]
        rw [ih (pre ++ (128 + (n - 1)) :: pix) rest
          (acc ++ (List.replicate n pix).flatten) f
          (fun q hq => hwf q (List.mem_cons_of_mem _ hq)) (by simp at hfuel; omega)
          (by rw [hmod'] at hmod; omega)]
        congr 1
        · simp [packetStream, List.flatMap_cons, RLEPacket.bytes, hpix]
          omega
        · simp [packetOutput, List.flatMap_cons, RLEPacket.output]
      | rawPkt n lits =>
        obtain ⟨hn1, hn, hlits⟩ := hwfp
        have hout : (RLEPacket.rawPkt n lits).output.length = n * bpp := by
          simp only [RLEPacket.output, hlits]
        have hbuf : pre ++ (packetStream (RLEPacket.rawPkt n lits :: ps) ++ rest)
            = pre ++ (n - 1) :: (lits ++ (packetStream ps ++ rest)) := by
          simp [packetStream, List.flatMap_cons, RLEPacket.bytes]
        rw [hbuf, hmod', hout]
        rw [rleLoop_step_raw lits hbpp hn1 hn hlits pre (packetStream ps ++ rest) acc f
          (packetOutput ps).length (by rw [hmod', hout] at hmod; exact hmod)]
        have hbuf2 : pre ++ (n - 1) :: (lits ++ (packetStream ps ++ rest))
            = (pre ++ (n - 1) :: lits) ++ (packetStream ps ++ rest) := by
          simp
        have hpos : pre.length + 1 + n * bpp = (pre ++ (n - 1) :: lits).length := by
          simp [hlits]
          omega
        rw [hbuf2, hpos]
        rw [ih (pre ++ (n - 1) :: lits) rest (acc ++ lits) f
          (fun q hq => hwf q (List.mem_cons_of_mem _ hq)) (by simp at hfuel; omega)
          (by rw [hmod'] at hmod; omega)]
        congr 1
        · simp [packetStream, List.flatMap_cons, RLEPacket.bytes, hlits]
          omega
        · simp [packetOutput, List.flatMap_cons, RLEPacket.output]

/-- Claim C4 (confirmed).  For every well-formed RLE packet stream and every
positive pixel byte width, `read_rle_image_data` decodes the stream exactly
as the claim states: a control byte with the high bit set (`0x80 ||| (n-1)`)
yields `n = (b &&& 0x7f) + 1` copies of the single following pixel, and a
control byte with the high bit clear yields `(b &&& 0x7f) + 1` literal
pixels copied verbatim; the decoded output is the concatenation of the
packet expansions.  (`rest.length = 26` satisfies the function's closing
assertion `pos + sizeof(Footer) == buf_len`; the total output length is
below the `size_t` modulus.)  The claim's two concrete examples are the
witness below. -/
theorem c4_rle_decode_correct (bpp : ℕ) (ps : List RLEPacket) (rest : List ℕ)
    (hbpp : 1 ≤ bpp) (hwf : ∀ p ∈ ps, p.WF bpp) (hrest : rest.length = 26)
    (hmod : (packetOutput ps).length < SIZE_T_MOD) :
    read_rle_image_data (packetStream ps ++ rest) bpp (packetOutput ps).length
      = RLEFinal.ok (packetOutput ps) := by
  unfold read_rle_image_data
  have hfuel : ps.length < (packetStream ps ++ rest).length + 2 := by
    have h := length_le_packetStream ps
    simp only [List.length_append]
    omega
  have h := rleLoop_packets hbpp ps [] rest []
    ((packetStream ps ++ rest).length + 2) hwf hfuel hmod
  simp only [List.nil_append, List.length_nil, Nat.zero_add] at h
  rw [h]
  simp [List.length_append, hrest]

/-- Witness for C4: the claim's own examples.  `[0x83, R,G,B,A]` at pixel
byte width 4 decodes to 4 identical 4-byte pixels, and `[0x02, p0,p1,p2]` at
pixel byte width 1 decodes to the three literal bytes. -/
theorem c4_rle_decode_correct_witness :
    read_rle_image_data ([131, 10, 20, 30, 40] ++ List.replicate 26 0) 4 16
        = RLEFinal.ok [10, 20, 30, 40, 10, 20, 30, 40, 10, 20, 30, 40, 10, 20, 30, 40] ∧
    read_rle_image_data ([2, 7, 8, 9] ++ List.replicate 26 0) 1 3
        = RLEFinal.ok [7, 8, 9] := by
  constructor
  · have h := c4_rle_decode_correct 4 [RLEPacket.runPkt 4 [10, 20, 30, 40]]
      (List.replicate 26 0) (by omega)
      (by
        intro p hp
        simp only [List.mem_singleton] at hp
        subst hp
        exact ⟨by omega, by omega, rfl⟩)
      (by simp)
      (by simp [packetOutput, RLEPacket.output, SIZE_T_MOD])
    exact h
  · have h := c4_rle_decode_correct 1 [RLEPacket.rawPkt 3 [7, 8, 9]]
      (List.replicate 26 0) (by omega)
      (by
        intro p hp
        simp only [List.mem_singleton] at hp
        subst hp
        exact ⟨by omega, by omega, rfl⟩)
      (by simp)
      (by simp [packetOutput, RLEPacket.output, SIZE_T_MOD])
    exact h

theorem length_swapAt (d : List ℕ) (i j : ℕ) : (swapAt d i j).length = d.length := by
  simp [swapAt]

theorem getElem?_eq_some_getD {d : List ℕ} {j : ℕ} (hj : j < d.length) :
    d[j]? = some (d.getD j 0) := by
  rw [List.getElem?_eq_getElem hj, List.getD_eq_getElem?_getD, List.getElem?_eq_getElem hj]
  rfl

theorem getElem?_swapAt {d : List ℕ} {i j : ℕ} (hi : i < d.length) (hj : j < d.length)
    (n : ℕ) :
    (swapAt d i j)[n]? =
      if n = j then some (d.getD i 0) else if n = i then some (d.getD j 0) else d[n]? := by
  unfold swapAt
  by_cases hnj : n = j
  · subst hnj
    rw [if_pos rfl]
    exact List.getElem?_set_self (by simp [List.length_set]; omega)
  · rw [if_neg hnj, List.getElem?_set_ne (fun hh => hnj hh.symm)]
    by_cases hni : n = i
    · subst hni
      rw [if_pos rfl]
      exact List.getElem?_set_self (by omega)
    · rw [if_neg hni, List.getElem?_set_ne (fun hh => hni hh.symm)]

theorem getD_swapAt {d : List ℕ} {i j : ℕ} (hi : i < d.length) (hj : j < d.length)
    (n : ℕ) :
    (swapAt d i j).getD n 0 =
      if n = j then d.getD i 0 else if n = i then d.getD j 0 else d.getD n 0 := by
  rw [List.getD_eq_getElem?_getD, getElem?_swapAt hi hj]
  by_cases hnj : n = j
  · rw [if_pos hnj, if_pos hnj]
    rfl
  · rw [if_neg hnj, if_neg hnj]
    by_cases hni : n = i
    · rw [if_pos hni, if_pos hni]
      rfl
    · rw [if_neg hni, if_neg hni]
      exact (List.getD_eq_getElem?_getD d n 0).symm

theorem swapAt_swapAt {d : List ℕ} {i j : ℕ} (hi : i < d.length) (hj : j < d.length) :
    swapAt (swapAt d i j) i j = d := by
  apply List.ext_getElem?
  intro n
  rw [getElem?_swapAt (by rw [length_swapAt]; exact hi) (by rw [length_swapAt]; exact hj) n]
  by_cases hnj : n = j
  · rw [if_pos hnj, getD_swapAt hi hj]
    by_cases hij : i = j
    · rw [if_pos hij, hij, hnj, getElem?_eq_some_getD hj]
    · rw [if_neg hij, if_pos rfl, hnj, getElem?_eq_some_getD hj]
  · rw [if_neg hnj]
    by_cases hni : n = i
    · rw [if_pos hni, getD_swapAt hi hj, if_pos rfl, hni, getElem?_eq_some_getD hi]
    · rw [if_neg hni, getElem?_swapAt hi hj, if_neg hnj, if_neg hni]

theorem swapAt_comm {d : List ℕ} {i j k l : ℕ} (hi : i < d.length) (hj : j < d.length)
    (hk : k < d.length) (hl : l < d.length)
    (h1 : i ≠ k) (h2 : i ≠ l) (h3 : j ≠ k) (h4 : j ≠ l) :
    swapAt (swapAt d i j) k l = swapAt (swapAt d k l) i j := by
  have hk1 : k < (swapAt d i j).length := by rw [length_swapAt]; exact hk
  have hl1 : l < (swapAt d i j).length := by rw [length_swapAt]; exact hl
  have hi2 : i < (swapAt d k l).length := by rw [length_swapAt]; exact hi
  have hj2 : j < (swapAt d k l).length := by rw [length_swapAt]; exact hj
  have hik : (swapAt d i j).getD k 0 = d.getD k 0 := by
    rw [getD_swapAt hi hj, if_neg (fun hh => h3 hh.symm), if_neg (fun hh => h1 hh.symm)]
  have hil : (swapAt d i j).getD l 0 = d.getD l 0 := by
    rw [getD_swapAt hi hj, if_neg (fun hh => h4 hh.symm), if_neg (fun hh => h2 hh.symm)]
  have hki : (swapAt d k l).getD i 0 = d.getD i 0 := by
    rw [getD_swapAt hk hl, if_neg h2, if_neg h1]
  have hkj : (swapAt d k l).getD j 0 = d.getD j 0 := by
    rw [getD_swapAt hk hl, if_neg h4, if_neg h3]
  apply List.ext_getElem?
  intro n
  rw [getElem?_swapAt hk1 hl1 n, getElem?_swapAt hi2 hj2 n]
  rw [hik, hil, hki, hkj]
  rw [getElem?_swapAt hi hj n, getElem?_swapAt hk hl n]
  by_cases hnl : n = l <;> by_cases hnk : n = k <;>
    by_cases hnj : n = j <;> by_cases hni : n = i <;>
    simp_all

theorem swapsList_cons (d : List ℕ) (p : ℕ × ℕ) (ps : List (ℕ × ℕ)) :
    swapsList d (p :: ps) = swapsList (swapAt d p.1 p.2) ps := rfl

theorem length_swapsList (ps : List (ℕ × ℕ)) (d : List ℕ) :
    (swapsList d ps).length = d.length := by
  induction ps generalizing d with
  | nil => rfl
  | cons p ps ih =>
    rw [swapsList_cons, ih, length_swapAt]

theorem swapAt_swapsList_comm (ps : List (ℕ × ℕ)) (d : List ℕ) (p : ℕ × ℕ)
    (hb : p.1 < d.length ∧ p.2 < d.length)
    (hbs : ∀ q ∈ ps, q.1 < d.length ∧ q.2 < d.length)
    (hd : ∀ q ∈ ps, DisjPair p q) :
    swapAt (swapsList d ps) p.1 p.2 = swapsList (swapAt d p.1 p.2) ps := by
  induction ps generalizing d with
  | nil => rfl
  | cons q ps ih =>
    rw [swapsList_cons, swapsList_cons]
    have hq := hbs q (List.mem_cons_self _ _)
    have hdq := hd q (List.mem_cons_self _ _)
    rw [ih (swapAt d q.1 q.2)
      (by rw [length_swapAt]; exact hb)
      (fun r hr => by rw [length_swapAt]; exact hbs r (List.mem_cons_of_mem _ hr))
      (fun r hr => hd r (List.mem_cons_of_mem _ hr))]
    rw [swapAt_comm hq.1 hq.2 hb.1 hb.2
      (fun hh => hdq.1 hh.symm) (fun hh => hdq.2.2.1 hh.symm)
      (fun hh => hdq.2.1 hh.symm) (fun hh => hdq.2.2.2 hh.symm)]

theorem swapsList_involutive (ps : List (ℕ × ℕ)) (d : List ℕ)
    (hbs : ∀ q ∈ ps, q.1 < d.length ∧ q.2 < d.length)
    (hdisj : ps.Pairwise DisjPair) :
    swapsList (swapsList d ps) ps = d := by
  induction ps generalizing d with
  | nil => rfl
  | cons p ps ih =>
    have hp := hbs p (List.mem_cons_self _ _)
    have hbs' : ∀ q ∈ ps, q.1 < (swapAt d p.1 p.2).length ∧ q.2 < (swapAt d p.1 p.2).length :=
      fun q hq => by rw [length_swapAt]; exact hbs q (List.mem_cons_of_mem _ hq)
    rw [swapsList_cons, swapsList_cons]
    rw [swapAt_swapsList_comm ps (swapAt d p.1 p.2) p
      (by rw [length_swapAt]; exact hp) hbs'
      (fun q hq => (List.pairwise_cons.mp hdisj).1 q hq)]
    rw [swapAt_swapAt hp.1 hp.2]
    exact ih d (fun q hq => hbs q (List.mem_cons_of_mem _ hq)) ((List.pairwise_cons.mp hdisj).2)
  
theorem perm_cons_set {d : List ℕ} {k : ℕ} (hk : k < d.length) (a : ℕ) :
    List.Perm (d.getD k 0 :: d.set k a) (a :: d) := by
  induction d generalizing k with
  | nil => simp at hk
  | cons x xs ih =>
    cases k with
    | zero =>
      simp only [List.getD_cons_zero, List.set_cons_zero]
      exact List.Perm.swap _ _ _
    | succ k =>
      simp only [List.getD_cons_succ, List.set_cons_succ]
      have h1 : List.Perm (xs.getD k 0 :: x :: xs.set k a) (x :: xs.getD k 0 :: xs.set k a) :=
        List.Perm.swap _ _ _
      have h2 : List.Perm (x :: xs.getD k 0 :: xs.set k a) (x :: a :: xs) :=
        List.Perm.cons x (ih (by simpa using hk))
      have h3 : List.Perm (x :: a :: xs) (a :: x :: xs) := List.Perm.swap _ _ _
      exact (h1.trans h2).trans h3

theorem getD_set_ne {d : List ℕ} {i j : ℕ} (h : i ≠ j) (v : ℕ) :
    (d.set i v).getD j 0 = d.getD j 0 := by
  rw [List.getD_eq_getElem?_getD, List.getElem?_set_ne h, ← List.getD_eq_getElem?_getD]

theorem set_getD_self {d : List ℕ} {i : ℕ} (hi : i < d.length) :
    d.set i (d.getD i 0) = d := by
  apply List.ext_getElem?
  intro n
  by_cases hni : n = i
  · rw [hni, List.getElem?_set_self hi, getElem?_eq_some_getD hi]
  · rw [List.getElem?_set_ne (fun hh => hni hh.symm)]

theorem swapAt_perm {d : List ℕ} {i j : ℕ} (hi : i < d.length) (hj : j < d.length) :
    List.Perm (swapAt d i j) d := by
  by_cases hij : i = j
  · rw [hij, swapAt, List.set_set, set_getD_self hj]
  · have h1 : List.Perm (d.getD i 0 :: d.set i (d.getD j 0)) (d.getD j 0 :: d) :=
      perm_cons_set hi _
    have h2 : List.Perm
        ((d.set i (d.getD j 0)).getD j 0 :: (d.set i (d.getD j 0)).set j (d.getD i 0))
        (d.getD i 0 :: d.set i (d.getD j 0)) :=
      perm_cons_set (by rw [List.length_set]; exact hj) _
    rw [getD_set_ne hij] at h2
    exact (h2.trans h1).cons_inv

theorem swapsList_perm (ps : List (ℕ × ℕ)) (d : List ℕ)
    (hbs : ∀ q ∈ ps, q.1 < d.length ∧ q.2 < d.length) :
    List.Perm (swapsList d ps) d := by
  induction ps generalizing d with
  | nil => exact List.Perm.refl d
  | cons p ps ih =>
    have hp := hbs p (List.mem_cons_self _ _)
    rw [swapsList_cons]
    have h1 : List.Perm (swapsList (swapAt d p.1 p.2) ps) (swapAt d p.1 p.2) :=
      ih (swapAt d p.1 p.2)
        (fun q hq => by rw [length_swapAt]; exact hbs q (List.mem_cons_of_mem _ hq))
    exact h1.trans (swapAt_perm hp.1 hp.2)

theorem swapsList_append (d : List ℕ) (ps qs : List (ℕ × ℕ)) :
    swapsList d (ps ++ qs) = swapsList (swapsList d ps) qs := by
  simp only [swapsList, List.foldl_append]

theorem swapsList_flatMap {α : Type} (rows : List α) (g : α → List (ℕ × ℕ)) (d : List ℕ) :
    swapsList d (rows.flatMap g) = rows.foldl (fun d r => swapsList d (g r)) d := by
  induction rows generalizing d with
  | nil => rfl
  | cons r rows ih =>
    rw [List.flatMap_cons, List.foldl_cons, swapsList_append, ih]

theorem swapsList_map {α : Type} (l : List α) (f : α → ℕ × ℕ) (d : List ℕ) :
    swapsList d (l.map f) = l.foldl (fun d x => swapAt d (f x).1 (f x).2) d := by
  rw [swapsList, List.foldl_map]

theorem flipV_image (t : TGA) :
    (flip_image_vertically t).image_data
      = swapsList t.image_data (vPairs (get_height t) (get_width t)) := by
  show (List.range (get_height t / 2)).foldl _ t.image_data = _
  rw [vPairs, swapsList_flatMap]
  congr 1
  funext d row
  rw [swapsList_map]

theorem flipH_image (t : TGA) :
    (flip_image_horizontally t).image_data
      = swapsList t.image_data
          (hPairs (get_height t) (get_width t) (get_pixel_width t)
            t.header.image_spec.width) := by
  show (List.range (t.header.image_spec.width / 2)).foldl _ t.image_data = _
  rw [hPairs, swapsList_flatMap]
  congr 1
  funext d col
  rw [swapsList_flatMap]
  congr 1
  funext d2 pbyte
  rw [swapsList_map]

theorem pairwise_flatMap {α β : Type} {R : β → β → Prop} (l : List α) (g : α → List β)
    (h1 : ∀ a ∈ l, (g a).Pairwise R)
    (h2 : List.Pairwise (fun a b => ∀ x ∈ g a, ∀ y ∈ g b, R x y) l) :
    (l.flatMap g).Pairwise R := by
  induction l with
  | nil => simp
  | cons a l ih =>
    rw [List.flatMap_cons, List.pairwise_append]
    refine ⟨h1 a (List.mem_cons_self _ _),
      ih (fun b hb => h1 b (List.mem_cons_of_mem _ hb)) (List.pairwise_cons.mp h2).2, ?_⟩
    intro x hx y hy
    obtain ⟨b, hb, hyb⟩ := List.mem_flatMap.mp hy
    exact (List.pairwise_cons.mp h2).1 b hb x hx y hyb

theorem pairwise_map_range {β : Type} {R : β → β → Prop} (n : ℕ) (f : ℕ → β)
    (h : ∀ i j, i < j → j < n → R (f i) (f j)) : ((List.range n).map f).Pairwise R := by
  rw [List.pairwise_iff_getElem]
  intro i j hi hj hij
  simp only [List.getElem_map, List.getElem_range]
  simp only [List.length_map, List.length_range] at hi hj
  exact h i j hij hj

theorem pairwise_range {R : ℕ → ℕ → Prop} (n : ℕ)
    (h : ∀ i j, i < j → j < n → R i j) : (List.range n).Pairwise R := by
  rw [List.pairwise_iff_getElem]
  intro i j hi hj hij
  simp only [List.getElem_range]
  simp only [List.length_range] at hi hj
  exact h i j hij hj

theorem row_col_ne {W r r' c c' : ℕ} (hc : c < W) (hc' : c' < W) (hr : r ≠ r') :
    r * W + c ≠ r' * W + c' := by
  intro he
  apply hr
  have hW : 0 < W := by omega
  have h1 : (r * W + c) / W = r := by
    rw [Nat.add_comm, Nat.add_mul_div_right _ _ hW, Nat.div_eq_of_lt hc, Nat.zero_add]
  have h2 : (r' * W + c') / W = r' := by
    rw [Nat.add_comm, Nat.add_mul_div_right _ _ hW, Nat.div_eq_of_lt hc', Nat.zero_add]
  rw [← h1, ← h2, he]

theorem idx_ne {W r r' c c' : ℕ} (hc : c < W) (hc' : c' < W)
    (h : r ≠ r' ∨ c ≠ c') : r * W + c ≠ r' * W + c' := by
  rcases h with h | h
  · exact row_col_ne hc hc' h
  · intro he
    rcases eq_or_ne r r' with hr | hr
    · subst hr
      exact h (by omega)
    · exact row_col_ne hc hc' hr he

theorem idx_lt {W r c len h : ℕ} (hc : c < W) (hr : r < h) (hlen : len = h * W) :
    r * W + c < len := by
  have h1 : r * W + c < (r + 1) * W := by
    rw [Nat.succ_mul]
    omega
  have h2 : (r + 1) * W ≤ h * W := Nat.mul_le_mul_right W (by omega)
  omega

theorem vPairs_bounds {h W len : ℕ} (hlen : len = h * W) :
    ∀ p ∈ vPairs h W, p.1 < len ∧ p.2 < len := by
  intro p hp
  simp only [vPairs, List.mem_flatMap, List.mem_map, List.mem_range] at hp
  obtain ⟨r, hr, c, hc, rfl⟩ := hp
  constructor
  · exact idx_lt hc (by omega) hlen
  · exact idx_lt hc (by omega) hlen

theorem vPairs_pairwise (h W : ℕ) : (vPairs h W).Pairwise DisjPair := by
  apply pairwise_flatMap
  · intro r hr
    rw [List.mem_range] at hr
    apply pairwise_map_range
    intro c c' hcc hc'
    exact ⟨idx_ne (by omega) hc' (Or.inr (by omega)),
      row_col_ne (by omega) hc' (by omega),
      row_col_ne (by omega) hc' (by omega),
      idx_ne (by omega) hc' (Or.inr (by omega))⟩
  · apply pairwise_range
    intro r r' hrr hr'
    intro x hx y hy
    simp only [List.mem_map, List.mem_range] at hx hy
    obtain ⟨c, hc, rfl⟩ := hx
    obtain ⟨c', hc', rfl⟩ := hy
    exact ⟨row_col_ne hc hc' (by omega),
      row_col_ne hc hc' (by omega),
      row_col_ne hc hc' (by omega),
      row_col_ne hc hc' (by omega)⟩

theorem bc_lt {wpx bpp col p : ℕ} (hcol : col < wpx) (hp : p < bpp) :
    col * bpp + p < wpx * bpp := by
  have h1 : col * bpp + p < (col + 1) * bpp := by
    rw [Nat.succ_mul]
    omega
  have h2 : (col + 1) * bpp ≤ wpx * bpp := Nat.mul_le_mul_right bpp (by omega)
  omega

theorem hPairs_bounds {h W bpp wpx len : ℕ} (hW : W = wpx * bpp) (hlen : len = h * W) :
    ∀ p ∈ hPairs h W bpp wpx, p.1 < len ∧ p.2 < len := by
  intro p hp
  simp only [hPairs, List.mem_flatMap, List.mem_map, List.mem_range] at hp
  obtain ⟨col, hcol, pb, hpb, row, hrow, rfl⟩ := hp
  constructor
  · exact idx_lt (hW ▸ bc_lt (by omega) hpb) hrow hlen
  · exact idx_lt (hW ▸ bc_lt (by omega) hpb) hrow hlen

theorem hPairs_pairwise (h W bpp wpx : ℕ) (hW : W = wpx * bpp) :
    (hPairs h W bpp wpx).Pairwise DisjPair := by
  apply pairwise_flatMap
  · -- inside one column: flatMap over pixel bytes of map over rows
    intro col hcol
    rw [List.mem_range] at hcol
    apply pairwise_flatMap
    · -- same pixel byte: rows differ
      intro pb hpb
      rw [List.mem_range] at hpb
      apply pairwise_map_range
      intro r r' hrr hr'
      have hb1 : col * bpp + pb < W := hW ▸ bc_lt (by omega) hpb
      have hb2 : (wpx - 1 - col) * bpp + pb < W := hW ▸ bc_lt (by omega) hpb
      exact ⟨row_col_ne hb1 hb1 (by omega), row_col_ne hb1 hb2 (by omega),
        row_col_ne hb2 hb1 (by omega), row_col_ne hb2 hb2 (by omega)⟩
    · -- different pixel bytes of the same column
      apply pairwise_range
      intro pb pb' hpp hpb'
      intro x hx y hy
      simp only [List.mem_map, List.mem_range] at hx hy
      obtain ⟨r, hr, rfl⟩ := hx
      obtain ⟨r', hr', rfl⟩ := hy
      have hb1 : col * bpp + pb < W := hW ▸ bc_lt (by omega) (by omega)
      have hb2 : (wpx - 1 - col) * bpp + pb < W := hW ▸ bc_lt (by omega) (by omega)
      have hb1' : col * bpp + pb' < W := hW ▸ bc_lt (by omega) hpb'
      have hb2' : (wpx - 1 - col) * bpp + pb' < W := hW ▸ bc_lt (by omega) hpb'
      have hcc : col ≠ wpx - 1 - col := by omega
      refine ⟨idx_ne hb1 hb1' (Or.inr (fun he => ?_)),
        idx_ne hb1 hb2' (Or.inr (row_col_ne (by omega) hpb' hcc)),
        idx_ne hb2 hb1' (Or.inr (row_col_ne (by omega) hpb' hcc.symm)),
        idx_ne hb2 hb2' (Or.inr (fun he => ?_))⟩
      · exact absurd (Nat.add_left_cancel he) (by omega)
      · exact absurd (Nat.add_left_cancel he) (by omega)
  · -- different columns
    apply pairwise_range
    intro col col' hcc hcol'
    intro x hx y hy
    simp only [List.mem_flatMap, List.mem_map, List.mem_range] at hx hy
    obtain ⟨pb, hpb, r, hr, rfl⟩ := hx
    obtain ⟨pb', hpb', r', hr', rfl⟩ := hy
    have hb1 : col * bpp + pb < W := hW ▸ bc_lt (by omega) hpb
    have hb2 : (wpx - 1 - col) * bpp + pb < W := hW ▸ bc_lt (by omega) hpb
    have hb1' : col' * bpp + pb' < W := hW ▸ bc_lt (by omega) hpb'
    have hb2' : (wpx - 1 - col') * bpp + pb' < W := hW ▸ bc_lt (by omega) hpb'
    exact ⟨idx_ne hb1 hb1' (Or.inr (row_col_ne hpb hpb' (by omega))),
      idx_ne hb1 hb2' (Or.inr (row_col_ne hpb hpb' (by omega))),
      idx_ne hb2 hb1' (Or.inr (row_col_ne hpb hpb' (by omega))),
      idx_ne hb2 hb2' (Or.inr (row_col_ne hpb hpb' (by omega)))⟩

/-- Claim C10 (confirmed).  For every image whose `image_data` has length
`height * width * pixel_byte_width`, each flip is an involution (applying it
twice restores the image exactly, including all non-pixel fields), and each
flip permutes the existing bytes, so the multiset of bytes and the length of
`image_data` are unchanged. -/
theorem c10_flips_involutive (t : TGA)
    (hlen : t.image_data.length =
      t.header.image_spec.height * t.header.image_spec.width * get_pixel_width t) :
    flip_image_vertically (flip_image_vertically t) = t ∧
    flip_image_horizontally (flip_image_horizontally t) = t ∧
    (flip_image_vertically t).image_data.Perm t.image_data ∧
    (flip_image_horizontally t).image_data.Perm t.image_data ∧
    (flip_image_vertically t).image_data.length = t.image_data.length ∧
    (flip_image_horizontally t).image_data.length = t.image_data.length := by
  have hlen' : t.image_data.length = get_height t * get_width t := by
    rw [hlen, get_width, get_height, Nat.mul_assoc]
  have hW : get_width t = t.header.image_spec.width * get_pixel_width t := rfl
  have hVdata : (flip_image_vertically (flip_image_vertically t)).image_data
      = t.image_data := by
    rw [flipV_image,
      show get_height (flip_image_vertically t) = get_height t from rfl,
      show get_width (flip_image_vertically t) = get_width t from rfl,
      flipV_image]
    exact swapsList_involutive _ _ (vPairs_bounds hlen') (vPairs_pairwise _ _)
  have hHdata : (flip_image_horizontally (flip_image_horizontally t)).image_data
      = t.image_data := by
    rw [flipH_image,
      show get_height (flip_image_horizontally t) = get_height t from rfl,
      show get_width (flip_image_horizontally t) = get_width t from rfl,
      show get_pixel_width (flip_image_horizontally t) = get_pixel_width t from rfl,
      show (flip_image_horizontally t).header.image_spec.width
        = t.header.image_spec.width from rfl,
      flipH_image]
    exact swapsList_involutive _ _ (hPairs_bounds hW hlen')
      (hPairs_pairwise _ _ _ _ hW)
  have hVperm : (flip_image_vertically t).image_data.Perm t.image_data := by
    rw [flipV_image]
    exact swapsList_perm _ _ (vPairs_bounds hlen')
  have hHperm : (flip_image_horizontally t).image_data.Perm t.image_data := by
    rw [flipH_image]
    exact swapsList_perm _ _ (hPairs_bounds hW hlen')
  refine ⟨?_, ?_, hVperm, hHperm, hVperm.length_eq, hHperm.length_eq⟩
  · have he : flip_image_vertically (flip_image_vertically t)
        = { t with image_data :=
            (flip_image_vertically (flip_image_vertically t)).image_data } := rfl
    rw [he, hVdata]
  · have he : flip_image_horizontally (flip_image_horizontally t)
        = { t with image_data :=
            (flip_image_horizontally (flip_image_horizontally t)).image_data } := rfl
    rw [he, hHdata]

/-- Witness for C10 on a concrete consistent one-pixel image. -/
theorem c10_flips_involutive_witness :
    flip_image_vertically (flip_image_vertically sample1x1) = sample1x1 ∧
    flip_image_horizontally (flip_image_horizontally sample1x1) = sample1x1 ∧
    (flip_image_vertically sample1x1).image_data.Perm sample1x1.image_data ∧
    (flip_image_horizontally sample1x1).image_data.Perm sample1x1.image_data ∧
    (flip_image_vertically sample1x1).image_data.length
      = sample1x1.image_data.length ∧
    (flip_image_horizontally sample1x1).image_data.length
      = sample1x1.image_data.length :=
  c10_flips_involutive sample1x1 (by decide)

end Renderer


namespace Renderer

theorem get_pixel_width_blank : get_pixel_width blankTGA = 0 := rfl

set_option maxRecDepth 8000 in
theorem writeImage_sample : writeImage sample1x1 = paintedSample := by
  rw [writeImage]
  simp only [get_pixel_width_sample]
  rw [paintImage_sample]
  decide

set_option maxRecDepth 8000 in
theorem write_to_file_sample :
    write_to_file sample1x1 = WriteResult.ok paintedSample sampleBytes := by
  simp only [write_to_file]
  rw [if_neg (by decide), if_neg (by decide)]
  rw [writeImage_sample]
  decide

/-- Claim C1 (code_bug).  The round-trip property fails on the code.  For the
only blank canvas the sources provide (`TGA {}`, all fields zero), encoding
never returns: the repaint loop `for (col = 0; col < 2000; col += off)` has
`off == get_pixel_width() == 0`.  And for a consistent in-memory image,
decoding the bytes that `write_to_file` wrote yields an image whose
`image_data` is empty (the `reserve`-instead-of-`resize` read), not the
original pixels — so `decode(encode(image)) ≠ image`. -/
theorem c1_roundtrip_fails :
    write_to_file blankTGA = WriteResult.diverge ∧
    writtenBytes (write_to_file sample1x1) = some sampleBytes ∧
    (decodeTGA sampleBytes).toOption.map (fun t => t.image_data) = some [] ∧
    sample1x1.image_data ≠ [] := by
  refine ⟨by decide, ?_, by decide, by decide⟩
  rw [write_to_file_sample]
  rfl

/-- Claim C2 (code_bug).  `write_to_file` is not a pure read of the image
state: after the call, `image_data` of the one-pixel image `sample1x1` has
been repainted from `[1, 2, 3, 4]` to `[255, 255, 0, 255]` by the debug
stripe block and the two flips at the top of the function. -/
theorem c2_encode_mutates_image_data :
    writtenImageData (write_to_file sample1x1) = some [255, 255, 0, 255] ∧
    sample1x1.image_data = [1, 2, 3, 4] := by
  rw [write_to_file_sample]
  exact ⟨rfl, rfl⟩

/-- Claim C3 (code_bug).  The RLE decode loop performs no bounds check before
its reads: on the one-byte source buffer `[0x81]` (a run-length packet header
announcing a following pixel) with `pixel_byte_width = 1` and two output
bytes expected, the loop attempts to read the pixel at index 1, which is at
the buffer length; there is no `CorruptRLE`-style error path in the code —
the read is undefined behavior, reported by the model as `oobRead`. -/
theorem c3_rle_reads_past_buffer :
    read_rle_image_data [129] 1 2 = RLEFinal.oobRead 1 := by decide

/-- Claim C5 (code_bug).  Decoding a well-formed uncompressed file succeeds,
but `image_data` has length 0 instead of `width * height * pixel_byte_width`
(here 1): the constructor calls `image_data.reserve(length)` and reads into
`data()`, so the vector size stays 0. -/
theorem c5_decoded_image_data_empty :
    (decodeTGA fileUncompressed1x1).toOption.map
        (fun t => (t.image_data.length,
          t.header.image_spec.width * t.header.image_spec.height * get_pixel_width t))
      = some (0, 1) := by decide

/-- Claim C6 (code_bug).  For a color-mapped input (`color_map_type = 1`,
base image type 1) the decode does not fail cleanly with the unsupported
error: `assert(this->color_map.size() > 0)` fires first (the color map vector
is empty because of the `reserve` read), aborting the process.  The grayscale
half of the claim does hold: base type 3 reaches the clean
`fail("gray-scale images aren't supported")` exit. -/
theorem c6_color_mapped_assert_aborts :
    decodeError (decodeTGA fileColorMapped) = some DErr.assertColorMapEmpty ∧
    decodeError (decodeTGA fileGrayscale) = some DErr.grayscaleUnsupported := by decide

/-- Claim C7 counterexample (corrected).  `write_to_file` does not emit the
six records of the claim: the bytes written for `sample1x1` are not the
claimed header/color-map/image-id/image-data/extension-area/footer sequence
(no extension area is written; the output is 48 bytes, the six-record stream
would be 543). -/
theorem c7_no_extension_area_written :
    writtenBytes (write_to_file sample1x1) ≠ some (spec_encode_six_records sample1x1) ∧
    writtenBytes (write_to_file sample1x1) = some sampleBytes := by
  rw [write_to_file_sample]
  exact ⟨by decide, rfl⟩

/-- Claim C7 as amended (corrected).  Whenever `write_to_file` returns, the
bytes written are exactly five records in this order: the header as stored in
memory (decode already cleared the RLE flag), the color-map bytes, the
image-id bytes, the current image-data bytes (after the function's internal
repaint and double flip), and the 26-byte footer; no extension area is
written. -/
theorem c7_five_records_in_order (t t2 : TGA) (bs : List ℕ)
    (h : write_to_file t = WriteResult.ok t2 bs) :
    bs = serializeHeader t.header ++ t.color_map ++ t.image_id_data
      ++ t2.image_data ++ serializeFooter t.footer := by
  unfold write_to_file at h
  split at h
  · exact WriteResult.noConfusion h
  · split at h
    · exact WriteResult.noConfusion h
    · injection h with h1 h2
      subst h1
      subst h2
      rfl

/-- Witness for C7: the five-record shape evaluated on `sample1x1`. -/
theorem c7_five_records_in_order_witness :
    sampleBytes = serializeHeader sample1x1.header ++ sample1x1.color_map
      ++ sample1x1.image_id_data ++ paintedSample.image_data
      ++ serializeFooter sample1x1.footer :=
  c7_five_records_in_order sample1x1 paintedSample sampleBytes write_to_file_sample

/-- Claim C8 (code_bug).  `set_pixel` is an empty function (`@INCOMPLETE` in
`src/tga.hh`): called out of range (`row = 1 ≥ height = 1`) it reports no
bounds error and returns the image unchanged, and called in range
(`row = col = 0`) it writes nothing instead of `pixel_byte_width` bytes. -/
theorem c8_set_pixel_is_noop :
    set_pixel sample1x1 1 0 (Pixel.mk 9 9 9 9) = sample1x1 ∧
    set_pixel sample1x1 0 0 (Pixel.mk 9 9 9 9) = sample1x1 :=
  ⟨rfl, rfl⟩

/-- Claim C9 counterexample (corrected).  On the decoded 3-pixel-wide,
32-bits-per-pixel image, `get_width` does not return the header-declared
width in pixels: it returns 12 (the width in bytes) while the header width is
3. -/
theorem c9_get_width_not_pixels :
    ¬ (decodeTGA fileWidth3).toOption.map get_width
        = (decodeTGA fileWidth3).toOption.map (fun t => t.header.image_spec.width) := by
  decide

/-- Claim C9 as amended (corrected).  For every decoded image, `get_width`
returns the image width in bytes — the header-declared pixel width times the
pixel byte width — and `get_height` returns the header-declared height in
pixels. -/
theorem c9_accessors_bytes_and_scanlines (file : List ℕ) (t : TGA)
    (_h : decodeTGA file = Except.ok t) :
    get_width t = t.header.image_spec.width * get_pixel_width t ∧
    get_height t = t.header.image_spec.height :=
  ⟨rfl, rfl⟩

/-- Witness for C9: the amended accessor property evaluated on the decoded
image of `fileWidth3`. -/
theorem c9_accessors_bytes_and_scanlines_witness :
    get_width decodedWidth3 = 12 ∧ get_height decodedWidth3 = 1 := by
  have h := c9_accessors_bytes_and_scanlines fileWidth3 decodedWidth3 rfl
  exact ⟨h.1.trans (by decide), h.2.trans (by decide)⟩

end Renderer
